import Mathlib

/-!
# Nodal bridge: block adapters over the pugixml writer and tree-walker interfaces

Shallow embedding of `Sources/bridge/src/bridge.cpp` (and of the older
`Sources/bridge/bridge.cpp`, whose writer half is textually the same).

* A Clang block is a closure of the host language.  It is embedded as a function
  that reads and updates the host state `σ` it captured.  A null block pointer is
  `none`.
* Every invocation of a block is recorded in a call log kept next to the host
  state (`World`), so that "the block was called with these arguments, in this
  order" is a statement about a list.
* `const void*` and `pugi::char_t*` are addresses (`Nat`); `size_t`,
  `unsigned int` and the encoding enumerator are forwarded without arithmetic and
  are `Nat`; the walker depth is the library's `int`, embedded as `Int` (it only
  moves by one per tree level).
-/

namespace Nodal

/-! ## Library data the bridge only holds handles to -/

/-- Modelled from the spec: attribute record of the wrapped library's document
model (`pugi::xml_attribute`), which is not among the repository's sources. Only
its identity matters to the bridge. -/
structure xml_attribute where
  name : Nat
  value : Nat
deriving DecidableEq

/-- Modelled from the spec: node storage of the wrapped library
(`pugi::xml_node_struct`), which is not among the repository's sources. A pointer
to a node is either null or gives access to the node's attributes, to its first
child and to its next sibling. -/
inductive xml_node_struct where
  | null : xml_node_struct
  | node (name : Nat) (first_attribute : List xml_attribute)
      (first_child : xml_node_struct) (next_sibling : xml_node_struct) : xml_node_struct
deriving DecidableEq

/-- Modelled from the spec: the library's generic node handle (`pugi::xml_node`),
a single pointer into the node storage. -/
structure xml_node where
  _root : xml_node_struct
deriving DecidableEq

/-- Modelled from the spec: the library's document handle (`pugi::xml_document`).
It is a node handle (its base class) together with storage the document owns. -/
structure xml_document extends xml_node where
  _buffer : Nat
  _memory : List Nat
deriving DecidableEq

/-- Pointer to the first child of a stored node (`first_child`), null for null. -/
def xml_node_struct.first : xml_node_struct → xml_node_struct
  | .null => .null
  | .node _ _ first_child _ => first_child

/-- Handles of a sibling chain, in order, starting at the given pointer. -/
def xml_node_struct.chain : xml_node_struct → List xml_node
  | .null => []
  | .node name attrs first_child next_sibling =>
      ⟨.node name attrs first_child next_sibling⟩ :: next_sibling.chain

/-- Sequence of children read through a node handle (`xml_node::children`). -/
def xml_node.children (n : xml_node) : List xml_node :=
  n._root.first.chain

/-- Sequence of attributes read through a node handle (`xml_node::attributes`). -/
def xml_node.attributes (n : xml_node) : List xml_attribute :=
  match n._root with
  | .null => []
  | .node _ attrs _ _ => attrs

/-! ## Call log -/

/-- One invocation of a write block: the pointer and the length it received. -/
structure write_call where
  data : Nat
  size : Nat
deriving DecidableEq

/-- One invocation of a visitor block: the node and depth it received and the
boolean it answered. -/
structure foreach_call where
  node : xml_node
  depth : Int
  result : Bool
deriving DecidableEq

/-- One invocation of a serialisation routine of the library, with the arguments
it received after the writer. -/
inductive library_call where
  | print (node : xml_node) (indent flags encoding depth : Nat) : library_call
  | save (document : xml_document) (indent flags encoding : Nat) : library_call
deriving DecidableEq

/-- Host state captured by the blocks, together with the log of block and library
invocations made so far. -/
structure World (σ : Type) where
  host : σ
  write_calls : List write_call
  foreach_calls : List foreach_call
  library_calls : List library_call
deriving DecidableEq

/-- Block type `void (^)(const void*, size_t)`. -/
abbrev write_block_t (σ : Type) := Nat → Nat → σ → σ

/-- Block type `bool (^)(const pugi::xml_node& node, int depth)`. The node
storage is not part of the host state: a visitor does not restructure the tree
while it is being walked. -/
abbrev foreach_block_t (σ : Type) := xml_node → Int → σ → Bool × σ

/-- Calling `block(data, size)`: the block runs on the host state and the call is
logged. -/
def call_write_block {σ : Type} (block : write_block_t σ) (data size : Nat)
    (e : World σ) : World σ :=
  { e with host := block data size e.host
           write_calls := e.write_calls ++ [⟨data, size⟩] }

/-- Calling `block(node, depth)`: the block runs on the host state, the call and
its answer are logged, and the answer is returned. -/
def call_foreach_block {σ : Type} (block : foreach_block_t σ) (node : xml_node)
    (depth : Int) (e : World σ) : Bool × World σ :=
  ((block node depth e.host).1,
   { e with host := (block node depth e.host).2
            foreach_calls := e.foreach_calls ++ [⟨node, depth, (block node depth e.host).1⟩] })

/-! ## bridge_writer -/

/-- Class `bridge_writer`: one member, the possibly null write block. -/
structure bridge_writer (σ : Type) where
  write_block : Option (write_block_t σ)

/-- Constructor `bridge_writer::bridge_writer(block) : write_block(block) {}`. -/
def bridge_writer.construct {σ : Type} (block : Option (write_block_t σ)) :
    bridge_writer σ :=
  { write_block := block }

/-- Destructor `bridge_writer::~bridge_writer()`: the release call is commented
out, so both branches leave everything as it is. -/
def bridge_writer.destruct {σ : Type} (w : bridge_writer σ) (e : World σ) : World σ :=
  match w.write_block with
  | some _ => e
  | none => e

/-- Method `bridge_writer::write(data, size)`: forwards to the block when there
is one. Returns the writer as it is after the call and the new world. -/
def bridge_writer.write {σ : Type} (w : bridge_writer σ) (data size : Nat)
    (e : World σ) : bridge_writer σ × World σ :=
  match w.write_block with
  | some block => (w, call_write_block block data size e)
  | none => (w, e)

/-- Successive `write` calls on one writer, one per chunk, in list order. -/
def bridge_writer.write_all {σ : Type} (w : bridge_writer σ) :
    List write_call → World σ → bridge_writer σ × World σ
  | [], e => (w, e)
  | c :: cs, e =>
      bridge_writer.write_all (w.write c.data c.size e).1 cs (w.write c.data c.size e).2

/-! ## Serialisation entry points -/

/-- Modelled from the spec: the serialisation routines of the wrapped library
(`pugi::xml_node::print`, `pugi::xml_document::save`), which are not among the
repository's sources. The bridge relies only on this: a routine pushes its output
through the `write` method of the writer it was given, chunk by chunk and in
order. Which chunks the library produces for which arguments is left open. -/
structure pugi_serializer where
  print_chunks : xml_node → Nat → Nat → Nat → Nat → List write_call
  save_chunks : xml_document → Nat → Nat → Nat → List write_call

/-- Modelled from the spec: `node.print(writer, indent, flags, encoding, depth)`.
The call is logged with its arguments, then the chunks go to the writer. -/
def xml_node.print {σ : Type} (lib : pugi_serializer) (node : xml_node)
    (writer : bridge_writer σ) (indent flags encoding depth : Nat) (e : World σ) :
    bridge_writer σ × World σ :=
  writer.write_all (lib.print_chunks node indent flags encoding depth)
    { e with library_calls := e.library_calls ++ [.print node indent flags encoding depth] }

/-- Modelled from the spec: `document.save(writer, indent, flags, encoding)`.
The call is logged with its arguments, then the chunks go to the writer. -/
def xml_document.save {σ : Type} (lib : pugi_serializer) (document : xml_document)
    (writer : bridge_writer σ) (indent flags encoding : Nat) (e : World σ) :
    bridge_writer σ × World σ :=
  writer.write_all (lib.save_chunks document indent flags encoding)
    { e with library_calls := e.library_calls ++ [.save document indent flags encoding] }

/-- Function `xml_node_print_with_block`: a writer on the stack around the block,
one `print` call, then the writer goes out of scope. -/
def xml_node_print_with_block {σ : Type} (lib : pugi_serializer) (node : xml_node)
    (indent flags encoding depth : Nat) (block : Option (write_block_t σ))
    (e : World σ) : World σ :=
  let writer := bridge_writer.construct block
  let r := node.print lib writer indent flags encoding depth e
  r.1.destruct r.2

/-- Function `xml_document_save_with_block`: a writer on the stack around the
block, one `save` call, then the writer goes out of scope. -/
def xml_document_save_with_block {σ : Type} (lib : pugi_serializer)
    (node : xml_document) (indent flags encoding : Nat)
    (block : Option (write_block_t σ)) (e : World σ) : World σ :=
  let writer := bridge_writer.construct block
  let r := node.save lib writer indent flags encoding e
  r.1.destruct r.2

/-- Function `xml_document_as_node`: `return document;` with return type
`pugi::xml_node`, that is, a copy of the document's node-handle base. -/
def xml_document_as_node (document : xml_document) : xml_node :=
  document.toxml_node

/-! ## bridge_walker -/

/-- Class `bridge_walker`: the possibly null visitor block, and the depth counter
inherited from `pugi::xml_tree_walker`. -/
structure bridge_walker (σ : Type) where
  _depth : Int
  foreach_block : Option (foreach_block_t σ)

/-- Modelled from the spec: accessor `xml_tree_walker::depth()` of the wrapped
library, the walker's own walk state. -/
def bridge_walker.depth {σ : Type} (w : bridge_walker σ) : Int :=
  w._depth

/-- Constructor `bridge_walker::bridge_walker(block) : foreach_block(block) {}`;
the base class starts its depth counter at zero. -/
def bridge_walker.construct {σ : Type} (block : Option (foreach_block_t σ)) :
    bridge_walker σ :=
  { _depth := 0, foreach_block := block }

/-- Destructor `bridge_walker::~bridge_walker()`: the release call is commented
out, so both branches leave everything as it is. -/
def bridge_walker.destruct {σ : Type} (w : bridge_walker σ) (e : World σ) : World σ :=
  match w.foreach_block with
  | some _ => e
  | none => e

/-- Method `bridge_walker::for_each(node)`: with a block, the block's answer for
the node and the current depth; without one, `false`. -/
def bridge_walker.for_each {σ : Type} (w : bridge_walker σ) (node : xml_node)
    (e : World σ) : Bool × World σ :=
  match w.foreach_block with
  | some block => call_foreach_block block node w.depth e
  | none => (false, e)

/-- Modelled from the spec: the inner loop of the library's traversal, which is
not among the repository's sources. From the given pointer on, every node of the
sibling chain is handed to `for_each` in document order, each followed by its own
subtree one level deeper; the first `false` answer stops the walk at once. The
result is `false` when the walk was stopped and `true` when it ran to its end. -/
def traverse_chain {σ : Type} :
    xml_node_struct → bridge_walker σ → World σ → Bool × bridge_walker σ × World σ
  | .null, walker, e => (true, walker, e)
  | .node name attrs first_child next_sibling, walker, e =>
      let r := walker.for_each ⟨.node name attrs first_child next_sibling⟩ e
      if r.1 then
        let below := traverse_chain first_child { walker with _depth := walker._depth + 1 } r.2
        if below.1 then
          traverse_chain next_sibling { below.2.1 with _depth := below.2.1._depth - 1 } below.2.2
        else below
      else (false, walker, r.2)

/-- Modelled from the spec: `pugi::xml_node::traverse(walker)` of the wrapped
library, which is not among the repository's sources. The spec describes it as
the traversal that drives the visitor over the nodes below the start node, the
visitor's answer deciding whether it continues (true) or stops (false), with
depth values following the library's own depth semantics. The library sets the
depth counter when the walk starts; the bridge only reads it. The value the
counter has at the start node is the parameter `root_depth`, and the children of
the start node are visited one level deeper, at `root_depth + 1` (the spec's
words, the root's children at depth 1, are `root_depth = 0`). A walk that was
not stopped returns `true`. -/
def xml_node.traverse {σ : Type} (root_depth : Int) (node : xml_node)
    (walker : bridge_walker σ) (e : World σ) : Bool × bridge_walker σ × World σ :=
  let r := traverse_chain node._root.first { walker with _depth := root_depth + 1 } e
  if r.1 then (true, { r.2.1 with _depth := r.2.1._depth - 1 }, r.2.2)
  else r

/-- Function `xml_node_walk_block`: a walker on the stack around the block, one
`traverse` call whose result is returned, then the walker goes out of scope.
`root_depth` is the library's depth value at the start node, see
`xml_node.traverse`. -/
def xml_node_walk_block {σ : Type} (root_depth : Int) (node : xml_node)
    (block : Option (foreach_block_t σ)) (e : World σ) : Bool × World σ :=
  let walker := bridge_walker.construct block
  let r := node.traverse root_depth walker e
  (r.1, r.2.1.destruct r.2.2)

/-! ## Reference run used to state the writer properties -/

/-- Host state after the listed write calls were made one after another. -/
def run_writes {σ : Type} (block : write_block_t σ) : List write_call → σ → σ
  | [], s => s
  | c :: cs, s => run_writes block cs (block c.data c.size s)

/-! ## Sample data -/

/-- A leaf named 3. -/
def sample_leaf : xml_node_struct :=
  .node 3 [] .null .null

/-- The tree `1(2(3), 4)`: node 1 has children 2 and 4, node 2 has child 3. -/
def sample_tree : xml_node_struct :=
  .node 1 [⟨7, 8⟩] (.node 2 [] sample_leaf (.node 4 [] .null .null)) .null

/-- A visitor that counts its calls and answers `false` on its second call. -/
def stop_at_second : foreach_block_t Nat :=
  fun _ _ seen => (decide (seen + 1 < 2), seen + 1)

/-- An empty world around a host counter at zero. -/
def world0 : World Nat :=
  { host := 0, write_calls := [], foreach_calls := [], library_calls := [] }

/-! ## Facts about the writer -/

/-- One `write` on a writer with a block is one call of the block. -/
theorem write_some {σ : Type} (block : write_block_t σ) (data size : Nat) (e : World σ) :
    (bridge_writer.construct (some block)).write data size e
      = (bridge_writer.construct (some block), call_write_block block data size e) := rfl

/-- Closed form of a sequence of `write` calls on a writer with a block. -/
theorem write_all_some {σ : Type} (block : write_block_t σ) (chunks : List write_call)
    (e : World σ) :
    (bridge_writer.construct (some block)).write_all chunks e
      = (bridge_writer.construct (some block),
         { e with host := run_writes block chunks e.host
                  write_calls := e.write_calls ++ chunks }) := by
  induction chunks generalizing e with
  | nil => simp [bridge_writer.write_all, run_writes]
  | cons c cs ih =>
      rw [bridge_writer.write_all, write_some, ih]
      simp [call_write_block, run_writes]

/-- A sequence of `write` calls on a writer without a block changes nothing. -/
theorem write_all_none {σ : Type} (chunks : List write_call) (e : World σ) :
    (bridge_writer.construct (none : Option (write_block_t σ))).write_all chunks e
      = (bridge_writer.construct none, e) := by
  induction chunks generalizing e with
  | nil => rfl
  | cons c cs ih =>
      rw [bridge_writer.write_all]
      exact ih e

/-- C1: on a writer built around a non-null block, a sequence of `write` calls
reaches the block as exactly that sequence of (pointer, length) pairs: the log of
block calls grows by the chunks themselves, in order, one entry per call (a zero
length included), the host state is what running the block on each chunk in turn
gives, and neither the writer nor the other logs change. -/
theorem C1_write_forwards_every_chunk_in_order {σ : Type} (block : write_block_t σ)
    (chunks : List write_call) (e : World σ) :
    ((bridge_writer.construct (some block)).write_all chunks e).2.write_calls
        = e.write_calls ++ chunks
      ∧ ((bridge_writer.construct (some block)).write_all chunks e).2.host
        = run_writes block chunks e.host
      ∧ ((bridge_writer.construct (some block)).write_all chunks e).2.foreach_calls
        = e.foreach_calls
      ∧ ((bridge_writer.construct (some block)).write_all chunks e).2.library_calls
        = e.library_calls
      ∧ ((bridge_writer.construct (some block)).write_all chunks e).1.write_block
        = some block
      ∧ ∀ data size : Nat,
          ((bridge_writer.construct (some block)).write data size e).2.write_calls
            = e.write_calls ++ [⟨data, size⟩]
          ∧ ((bridge_writer.construct (some block)).write data size e).2.host
            = block data size e.host := by
  rw [write_all_some]
  refine ⟨rfl, rfl, rfl, rfl, rfl, ?_⟩
  intro data size
  exact ⟨rfl, rfl⟩

/-- C2: on a writer built around a null block, `write` returns normally with the
world exactly as it was (no block call logged, host state untouched) and the
writer still holding a null block. -/
theorem C2_write_with_null_block_does_nothing {σ : Type} (data size : Nat)
    (e : World σ) :
    (bridge_writer.construct (none : Option (write_block_t σ))).write data size e
        = (bridge_writer.construct none, e)
      ∧ ((bridge_writer.construct (none : Option (write_block_t σ))).write data size e).1.write_block.isNone
        = true := by
  exact ⟨rfl, rfl⟩

/-- C3: whatever depth the walk has reached, `for_each` on a walker built around a
non-null block calls the block exactly once, with the node it was given and the
walker's current `depth()`, and returns the boolean the block answered. -/
theorem C3_for_each_calls_block_once_with_depth {σ : Type} (block : foreach_block_t σ)
    (depth : Int) (node : xml_node) (e : World σ) :
    ({ bridge_walker.construct (some block) with _depth := depth }).for_each node e
      = ((block node
            ({ bridge_walker.construct (some block) with _depth := depth }).depth e.host).1,
         { e with
           host := (block node depth e.host).2
           foreach_calls := e.foreach_calls
             ++ [⟨node,
                  ({ bridge_walker.construct (some block) with _depth := depth }).depth,
                  (block node depth e.host).1⟩] }) := by
  rfl

/-- C4: whatever depth the walk has reached, `for_each` on a walker built around a
null block returns `false` and leaves the world as it was: no block call is
logged. -/
theorem C4_for_each_with_null_block_is_false {σ : Type} (depth : Int) (node : xml_node)
    (e : World σ) :
    ({ bridge_walker.construct (none : Option (foreach_block_t σ)) with
        _depth := depth }).for_each node e = (false, e) := by
  rfl

/-! ## Facts about the walker -/

/-- The walker's destructor has no effect. -/
theorem walker_destruct_eq {σ : Type} (w : bridge_walker σ) (e : World σ) :
    w.destruct e = e := by
  unfold bridge_walker.destruct
  cases w.foreach_block <;> rfl

/-- The writer's destructor has no effect. -/
theorem writer_destruct_eq {σ : Type} (w : bridge_writer σ) (e : World σ) :
    w.destruct e = e := by
  unfold bridge_writer.destruct
  cases w.write_block <;> rfl

/-- The walk entry point is the inner loop run on the children of the start node,
one level below the start node; its result and final world are those of the
loop. -/
theorem walk_eq_chain {σ : Type} (root_depth : Int) (node : xml_node)
    (block : Option (foreach_block_t σ)) (e : World σ) :
    xml_node_walk_block root_depth node block e
      = ((traverse_chain node._root.first ⟨root_depth + 1, block⟩ e).1,
         (traverse_chain node._root.first ⟨root_depth + 1, block⟩ e).2.2) := by
  simp only [xml_node_walk_block, xml_node.traverse, bridge_walker.construct,
    walker_destruct_eq]
  cases h : (traverse_chain node._root.first ⟨root_depth + 1, block⟩ e).1 <;> simp [h]

/-- Without a block the loop stops at the first node it meets, if there is one. -/
theorem traverse_chain_none {σ : Type} (t : xml_node_struct) (d : Int) (e : World σ) :
    traverse_chain t (⟨d, none⟩ : bridge_walker σ) e
      = (decide (t = .null), ⟨d, none⟩, e) := by
  cases t <;> simp [traverse_chain, bridge_walker.for_each]

/-- Shape of the loop's log for any visitor: the result is the conjunction of the
answers, and a stopped walk ends with its only `false` answer. -/
theorem traverse_chain_log {σ : Type} (block : foreach_block_t σ) (t : xml_node_struct)
    (d : Int) (e : World σ) :
    ∃ (r : Bool) (d1 : Int) (h : σ) (new : List foreach_call),
      traverse_chain t ⟨d, some block⟩ e
          = (r, ⟨d1, some block⟩, { e with host := h, foreach_calls := e.foreach_calls ++ new })
        ∧ new.all (fun c => c.result) = r
        ∧ (r = false → ∃ pre c, new = pre ++ [c] ∧ c.result = false
            ∧ pre.all (fun c => c.result) = true) := by
  induction t generalizing d e with
  | null =>
      exact ⟨true, d, e.host, [], by simp [traverse_chain], rfl, by simp⟩
  | node name attrs fc ns ih_fc ih_ns =>
      simp only [traverse_chain, bridge_walker.for_each, call_foreach_block,
        bridge_walker.depth]
      cases hans : (block ⟨.node name attrs fc ns⟩ d e.host).1
      · refine ⟨false, d, (block ⟨.node name attrs fc ns⟩ d e.host).2,
          [⟨⟨.node name attrs fc ns⟩, d, false⟩], by simp, by simp, ?_⟩
        intro _
        exact ⟨[], ⟨⟨.node name attrs fc ns⟩, d, false⟩, by simp, rfl, rfl⟩
      · obtain ⟨r1, d1, h1, new1, eq1, all1, last1⟩ := ih_fc (d + 1)
          { e with host := (block ⟨.node name attrs fc ns⟩ d e.host).2
                   foreach_calls := e.foreach_calls ++ [⟨⟨.node name attrs fc ns⟩, d, true⟩] }
        simp only [if_true, eq1]
        cases r1
        · obtain ⟨pre, c, hnew, hc, hpre⟩ := last1 rfl
          refine ⟨false, d1, h1, ⟨⟨.node name attrs fc ns⟩, d, true⟩ :: new1, by simp, ?_, ?_⟩
          · simpa using all1
          · intro _
            exact ⟨⟨⟨.node name attrs fc ns⟩, d, true⟩ :: pre, c, by simp [hnew], hc,
              by simpa using hpre⟩
        · obtain ⟨r2, d2, h2, new2, eq2, all2, last2⟩ := ih_ns (d1 - 1)
            { e with host := h1
                     foreach_calls := e.foreach_calls
                       ++ [⟨⟨.node name attrs fc ns⟩, d, true⟩] ++ new1 }
          simp only [if_true]
          refine ⟨r2, d2, h2, ⟨⟨.node name attrs fc ns⟩, d, true⟩ :: (new1 ++ new2), ?_, ?_, ?_⟩
          · simpa using eq2
          · simpa [all1] using all2
          · intro hr2
            obtain ⟨pre, c, hnew, hc, hpre⟩ := last2 hr2
            refine ⟨⟨⟨.node name attrs fc ns⟩, d, true⟩ :: (new1 ++ pre), c, by simp [hnew],
              hc, ?_⟩
            simp only [List.all_cons, List.all_append, all1, hpre, Bool.and_self]

/-- Shape of the log of a whole walk, for any visitor. -/
theorem walk_log {σ : Type} (root_depth : Int) (node : xml_node)
    (block : foreach_block_t σ) (e : World σ) :
    ∃ new : List foreach_call,
      (xml_node_walk_block root_depth node (some block) e).2.foreach_calls
          = e.foreach_calls ++ new
        ∧ new.all (fun c => c.result) = (xml_node_walk_block root_depth node (some block) e).1
        ∧ ((xml_node_walk_block root_depth node (some block) e).1 = false →
            ∃ pre c, new = pre ++ [c] ∧ c.result = false
              ∧ pre.all (fun c => c.result) = true) := by
  obtain ⟨r, d1, h, new, eq, hall, hlast⟩ :=
    traverse_chain_log block node._root.first (root_depth + 1) e
  rw [walk_eq_chain, eq]
  exact ⟨new, rfl, hall, hlast⟩

/-! ## The walk -/

/-- C5: in a walk with a non-null block, a call on which the block answers
`false` is the last call of the walk (no entry follows it in the log) and the
walk returns `false`; this holds whatever depth value the library starts the
walk with. -/
theorem C5_walk_stops_at_first_false {σ : Type} (root_depth : Int) (node : xml_node)
    (block : foreach_block_t σ) (e : World σ) (before after : List foreach_call)
    (c : foreach_call)
    (hlog : (xml_node_walk_block root_depth node (some block) e).2.foreach_calls
      = e.foreach_calls ++ (before ++ c :: after))
    (hc : c.result = false) :
    after = [] ∧ (xml_node_walk_block root_depth node (some block) e).1 = false := by
  obtain ⟨new, hnew, hall, hlast⟩ := walk_log root_depth node block e
  have hsame : before ++ c :: after = new :=
    List.append_cancel_left (hlog.symm.trans hnew)
  cases hr : (xml_node_walk_block root_depth node (some block) e).1
  · refine ⟨?_, rfl⟩
    obtain ⟨pre, c0, hsplit, _, hpre⟩ := hlast hr
    rw [hsplit] at hsame
    rcases List.append_eq_append_iff.mp hsame with ⟨a, h1, h2⟩ | ⟨a, h1, h2⟩
    · cases a with
      | nil =>
          simp at h2
          exact h2.2
      | cons x xs =>
          simp only [List.cons_append, List.cons.injEq] at h2
          have hmem : c ∈ pre := by
            rw [h1, h2.1]
            simp
          have htrue := List.all_eq_true.mp hpre c hmem
          simp [hc] at htrue
    · cases a with
      | nil =>
          simp at h2
          exact h2.2
      | cons x xs =>
          have hlen := congrArg List.length h2
          simp at hlen
  · rw [hr] at hall
    have hmem : c ∈ new := by
      rw [← hsame]
      simp
    have htrue := List.all_eq_true.mp hall c hmem
    simp [hc] at htrue

/-- C5 at a concrete walk: on the tree `1(2(3), 4)` the visitor that refuses its
second call is called on 2 and on 3 and never on 4, and the walk returns
`false`. -/
theorem C5_walk_stops_at_first_false_witness :
    (xml_node_walk_block 0 ⟨sample_tree⟩ (some stop_at_second) world0).2.foreach_calls
        = world0.foreach_calls
          ++ ([⟨⟨.node 2 [] sample_leaf (.node 4 [] .null .null)⟩, 1, true⟩]
            ++ ⟨⟨sample_leaf⟩, 2, false⟩ :: [])
      ∧ (xml_node_walk_block 0 ⟨sample_tree⟩ (some stop_at_second) world0).1 = false :=
  ⟨by decide,
   (C5_walk_stops_at_first_false 0 ⟨sample_tree⟩ stop_at_second world0
      [⟨⟨.node 2 [] sample_leaf (.node 4 [] .null .null)⟩, 1, true⟩] []
      ⟨⟨sample_leaf⟩, 2, false⟩ (by decide) rfl).2⟩

/-- C7, as amended: with a null block the walk calls nothing and leaves the world
as it was, for every start node; it returns `false` exactly when the start node
has at least one child, and `true` for a start node without children; this
holds whatever depth value the library starts the walk with. -/
theorem C7_walk_with_null_block {σ : Type} (root_depth : Int) (node : xml_node)
    (e : World σ) :
    (xml_node_walk_block root_depth node (none : Option (foreach_block_t σ)) e).2 = e
      ∧ ((xml_node_walk_block root_depth node (none : Option (foreach_block_t σ)) e).1
            = false
          ↔ node.children ≠ []) := by
  rw [walk_eq_chain, traverse_chain_none]
  refine ⟨rfl, ?_⟩
  unfold xml_node.children
  cases node._root.first <;> simp [xml_node_struct.chain]

/-- C7, as stated, fails: a walk with a null block that starts at a node without
children returns `true`, not `false`; nothing is called. The depth value the
walk starts with plays no part; it is taken as 0 here. -/
theorem C7_null_block_walk_of_leaf_returns_true :
    (⟨sample_leaf⟩ : xml_node).children = []
      ∧ xml_node_walk_block 0 ⟨sample_leaf⟩ (none : Option (foreach_block_t Nat)) world0
        = (true, world0) := by
  decide

/-- C10: with a non-null block, the walk returns `true` exactly when the block
answered `true` on every call made during that walk; a start node without
children gives no call and the result `true`; and the value returned is the
result of the library traversal on a walker around the block, as it is; this
holds whatever depth value the library starts the walk with. -/
theorem C10_walk_result_is_conjunction_of_answers {σ : Type} (root_depth : Int)
    (node : xml_node) (block : foreach_block_t σ) (e : World σ) :
    (∃ new : List foreach_call,
        (xml_node_walk_block root_depth node (some block) e).2.foreach_calls
            = e.foreach_calls ++ new
          ∧ ((xml_node_walk_block root_depth node (some block) e).1 = true
              ↔ ∀ c ∈ new, c.result = true))
      ∧ (node.children = [] →
          xml_node_walk_block root_depth node (some block) e = (true, e))
      ∧ (xml_node_walk_block root_depth node (some block) e).1
          = (node.traverse root_depth (bridge_walker.construct (some block)) e).1 := by
  refine ⟨?_, ?_, rfl⟩
  · obtain ⟨new, hnew, hall, _⟩ := walk_log root_depth node block e
    refine ⟨new, hnew, ?_⟩
    rw [← hall, List.all_eq_true]
  · intro hleaf
    rw [walk_eq_chain]
    unfold xml_node.children at hleaf
    cases hfirst : node._root.first with
    | null => rfl
    | node name attrs fc ns => simp [hfirst, xml_node_struct.chain] at hleaf

/-! ## Document handle and serialisation -/

/-- C8: `xml_document_as_node` returns the node-handle base of the document, the
result of the library's own document-to-node conversion; the children and the
attributes read through the returned handle are those read through the document.
The function takes the document by const reference and is embedded as a function
of the document alone, so the document is as it was. -/
theorem C8_document_as_node_is_the_document_handle (document : xml_document) :
    xml_document_as_node document = document.toxml_node
      ∧ (xml_document_as_node document)._root = document._root
      ∧ (xml_document_as_node document).children = document.children
      ∧ (xml_document_as_node document).attributes = document.attributes := by
  exact ⟨rfl, rfl, rfl, rfl⟩

/-- C9: each serialisation entry point makes exactly one library call, `print`
resp. `save`, with the arguments it was given, unchanged and in the same
positions, on a writer around the given block. With a non-null block the block
receives exactly the chunks the routine writes for those arguments, in order;
with a null block nothing else happens. -/
theorem C9_print_and_save_forward_once {σ : Type} (lib : pugi_serializer)
    (node : xml_node) (document : xml_document) (indent flags encoding depth : Nat)
    (e : World σ) :
    (∀ block : Option (write_block_t σ),
        xml_node_print_with_block lib node indent flags encoding depth block e
            = (node.print lib (bridge_writer.construct block) indent flags encoding depth e).2
          ∧ xml_document_save_with_block lib document indent flags encoding block e
            = (document.save lib (bridge_writer.construct block) indent flags encoding e).2
          ∧ (xml_node_print_with_block lib node indent flags encoding depth block e).library_calls
            = e.library_calls ++ [.print node indent flags encoding depth]
          ∧ (xml_document_save_with_block lib document indent flags encoding block e).library_calls
            = e.library_calls ++ [.save document indent flags encoding])
      ∧ (∀ block : write_block_t σ,
          (xml_node_print_with_block lib node indent flags encoding depth (some block) e).write_calls
            = e.write_calls ++ lib.print_chunks node indent flags encoding depth
          ∧ (xml_document_save_with_block lib document indent flags encoding (some block) e).write_calls
            = e.write_calls ++ lib.save_chunks document indent flags encoding)
      ∧ (xml_node_print_with_block lib node indent flags encoding depth
            (none : Option (write_block_t σ)) e).write_calls = e.write_calls
      ∧ (xml_document_save_with_block lib document indent flags encoding
            (none : Option (write_block_t σ)) e).write_calls = e.write_calls := by
  refine ⟨?_, ?_, ?_, ?_⟩
  · intro block
    simp only [xml_node_print_with_block, xml_document_save_with_block, writer_destruct_eq,
      xml_node.print, xml_document.save]
    cases block with
    | none => simp [write_all_none]
    | some b => simp [write_all_some]
  · intro block
    simp [xml_node_print_with_block, xml_document_save_with_block, writer_destruct_eq,
      xml_node.print, xml_document.save, write_all_some]
  · simp [xml_node_print_with_block, writer_destruct_eq, xml_node.print, write_all_none]
  · simp [xml_document_save_with_block, writer_destruct_eq, xml_document.save, write_all_none]

end Nodal
